import Mathlib

/-!
Verification of the labgen text-processing core (src/main/labgen.py and
src/main/commands.py): the call-site argument parser (`LabGen.parse_args`),
the template registry and expander (`Template.parse_body`,
`Template.interpolate_params`, `LabGen._resolve_templates`), the metadata
builder (`Builder`, `ObjectBuilder`, `DatafileVariable.parse_metadata`) and
the command dispatcher (`Command.__call__`).

Python dictionaries are modelled as association lists with
replace-in-place-or-append assignment (preserving insertion order, like
CPython dicts). Python exceptions are modelled with `Except`. Regular
expression scans are modelled as explicit character-list scanners that
follow the concrete patterns of the source.
-/

namespace Labgen

/-- Python `\s` (ASCII range): space, tab, newline, carriage return,
vertical tab, form feed. -/
def isSpaceChar (c : Char) : Bool :=
  c = ' ' || c = '\t' || c = '\n' || c = '\r' || c = '\x0b' || c = '\x0c'

/-- Python `\w` (ASCII range): alphanumeric or underscore. -/
def isWordChar (c : Char) : Bool :=
  c.isAlphanum || c = '_'

/-- Python `str.strip()`: drop whitespace from both ends. -/
def stripChars (l : List Char) : List Char :=
  ((l.dropWhile isSpaceChar).reverse.dropWhile isSpaceChar).reverse

/-- Python `str.strip()` on strings. -/
def pyStrip (s : String) : String :=
  (stripChars s.toList).asString

/-- Python `str.lower()` (ASCII). -/
def pyLower (s : String) : String :=
  (s.toList.map Char.toLower).asString

/-- Split a character list on a separator character, keeping empty chunks,
like Python `str.split(sep)` for a one-character separator. -/
def splitChar (sep : Char) : List Char → List (List Char)
  | [] => [[]]
  | c :: t =>
    if c = sep then [] :: splitChar sep t
    else
      match splitChar sep t with
      | [] => [[c]]
      | h :: r => (c :: h) :: r

/-- Python `s.split(sep)` for a one-character separator, on strings. -/
def pySplit (sep : Char) (s : String) : List String :=
  (splitChar sep s.toList).map List.asString

/-- Python `s.split(sep, 1)` for a one-character separator: the part before
the first separator, and the remainder if the separator occurs. -/
def splitFirst (sep : Char) : List Char → List Char × Option (List Char)
  | [] => ([], none)
  | c :: t =>
    if c = sep then ([], some t)
    else
      let (a, b) := splitFirst sep t
      (c :: a, b)

/-- Association-list lookup, the model of Python `dict.get` /
`dict.__getitem__` key search. -/
def alookup {α β : Type} [DecidableEq α] : List (α × β) → α → Option β
  | [], _ => none
  | (k, v) :: rest, key => if key = k then some v else alookup rest key

/-- Association-list assignment, the model of Python `dict.__setitem__`:
replace in place when the key is present, append otherwise. -/
def ainsert {α β : Type} [DecidableEq α] : List (α × β) → α → β → List (α × β)
  | [], k, v => [(k, v)]
  | (k', v') :: rest, k, v =>
    if k = k' then (k, v) :: rest else (k', v') :: ainsert rest k v

theorem alookup_ainsert_self {α β : Type} [DecidableEq α]
    (m : List (α × β)) (k : α) (v : β) : alookup (ainsert m k v) k = some v := by
  induction m with
  | nil => simp [ainsert, alookup]
  | cons kv rest ih =>
    obtain ⟨k', v'⟩ := kv
    by_cases h : k = k' <;> simp [ainsert, alookup, h, ih]

theorem alookup_ainsert_ne {α β : Type} [DecidableEq α]
    (m : List (α × β)) (k q : α) (v : β) (h : q ≠ k) :
    alookup (ainsert m k v) q = alookup m q := by
  induction m with
  | nil => simp [ainsert, alookup, h]
  | cons kv rest ih =>
    obtain ⟨k', v'⟩ := kv
    by_cases h1 : k = k'
    · subst h1
      simp [ainsert, alookup, h]
    · by_cases h2 : q = k' <;> simp [ainsert, alookup, h1, h2, ih]

/-! ## Argument List Parser (`LabGen.parse_args`)

`LabGen.ARGS_ITEM_PATTERN = (?:\s*(\w*)\s*=\s*([^|]*)|([^|]+))\|?` is scanned
with `finditer`.  The classes `\s`, `\w`, `[^|]` and the literal `=` all
exclude `|`, so a match attempted at some position inspects exactly the
bar-free chunk starting there: the first alternative recognizes
`ws* word ws* = ws* value`, the second any non-empty chunk, and the trailing
`\|?` consumes the following separator.  At a position holding `|` neither
alternative matches and `finditer` advances one character. -/

/-- A key of the unified argument map: integer (positional) or string
(named).  Python uses one dict with both int and str keys. -/
inductive ArgKey where
  | pos (n : Nat) : ArgKey
  | name (s : String) : ArgKey
deriving DecidableEq, Repr

/-- One match of `ARGS_ITEM_PATTERN`: a `name=value` item (groups 1 and 2)
or a bare positional item (group 3). -/
inductive ArgItem where
  | named (key value : String) : ArgItem
  | positional (text : String) : ArgItem
deriving DecidableEq, Repr

/-- First alternative `\s*(\w*)\s*=\s*([^|]*)` of `ARGS_ITEM_PATTERN`,
applied to one bar-free chunk: skip whitespace, take word characters as the
key, skip whitespace, require `=`, skip whitespace, the rest of the chunk is
the value. -/
def argChunkNamed (chunk : List Char) : Option (String × String) :=
  let r1 := chunk.dropWhile isSpaceChar
  let key := r1.takeWhile isWordChar
  let r2 := (r1.dropWhile isWordChar).dropWhile isSpaceChar
  match r2 with
  | '=' :: r3 => some (key.asString, (r3.dropWhile isSpaceChar).asString)
  | _ => none

/-- The item matched at a non-empty bar-free chunk: the named alternative if
it applies, else the whole chunk as a positional item (`([^|]+)`). -/
def chunkToItem (chunk : List Char) : ArgItem :=
  match argChunkNamed chunk with
  | some (k, v) => .named k v
  | none => .positional chunk.asString

/-- Drop the single separator consumed by the trailing `\|?`. -/
def barTail (l : List Char) : List Char :=
  match l with
  | [] => []
  | c :: r => if c = '|' then r else c :: r

theorem length_dropWhile_le' (p : Char → Bool) (l : List Char) :
    (l.dropWhile p).length ≤ l.length := by
  induction l with
  | nil => simp [List.dropWhile]
  | cons c t ih =>
    by_cases h : p c
    · simp [List.dropWhile, h]
      omega
    · simp [List.dropWhile, h]

theorem length_barTail_le (l : List Char) : (barTail l).length ≤ l.length := by
  cases l with
  | nil => simp [barTail]
  | cons c r =>
    by_cases h : c = '|' <;> simp [barTail, h]

/-- The sequence of items produced by `finditer(ARGS_ITEM_PATTERN, s)`, in
scan order: at `|` no match starts, so the scan skips one character; at any
other character the match spans the bar-free chunk and the following
separator. -/
def argItems : List Char → List ArgItem
  | [] => []
  | c :: t =>
    if c = '|' then argItems t
    else chunkToItem (c :: t.takeWhile (· ≠ '|')) ::
      argItems (barTail (t.dropWhile (· ≠ '|')))
termination_by l => l.length
decreasing_by
  · simp only [List.length_cons]
    omega
  · exact Nat.lt_of_le_of_lt
      (Nat.le_trans (length_barTail_le _) (length_dropWhile_le' _ _))
      (by simp only [List.length_cons]; omega)

/-- `value.strip() if strip_values else value`. -/
def stripVal (strip : Bool) (v : String) : String :=
  if strip then pyStrip v else v

/-- The loop body of `LabGen.parse_args`: for each match, a named item is
stored under its string key and a bare item under the current integer
position; `position` is incremented after every match of either kind. -/
def applyItems (strip : Bool) : Nat → List ArgItem → List (ArgKey × String) →
    List (ArgKey × String)
  | _, [], m => m
  | p, .named k v :: rest, m =>
    applyItems strip (p + 1) rest (ainsert m (.name k) (stripVal strip v))
  | p, .positional v :: rest, m =>
    applyItems strip (p + 1) rest (ainsert m (.pos p) (stripVal strip v))

/-- `LabGen.parse_args(string, strip_values)`. -/
def parseArgs (strip : Bool) (s : String) : List (ArgKey × String) :=
  applyItems strip 0 (argItems s.toList) []

/-! ### Structure of the argument scan

The scan of `ARGS_ITEM_PATTERN` yields exactly one item per non-empty
bar-free chunk of the input: items never span a `|`, and positions holding
`|` are skipped without a match. -/

theorem splitChar_ne_nil (sep : Char) (l : List Char) : splitChar sep l ≠ [] := by
  cases l with
  | nil => simp [splitChar]
  | cons c t =>
    by_cases h : c = sep
    · simp [splitChar, h]
    · simp only [splitChar, h, if_false]
      split <;> simp

theorem dropWhile_head_false {p : Char → Bool} :
    ∀ {l r : List Char} {c : Char}, l.dropWhile p = c :: r → p c = false := by
  intro l
  induction l with
  | nil => intro r c h; simp [List.dropWhile] at h
  | cons a t ih =>
    intro r c h
    by_cases hp : p a
    · simp [List.dropWhile, hp] at h
      exact ih h
    · simp [List.dropWhile, hp] at h
      obtain ⟨h1, _⟩ := h
      subst h1
      simpa using hp

/-- The chunks of the input after the first separator, if any. -/
def splitRest (sep : Char) (l : List Char) : List (List Char) :=
  match l.dropWhile (· ≠ sep) with
  | [] => []
  | _ :: r => splitChar sep r

theorem splitChar_eq_takeWhile (sep : Char) (t : List Char) :
    splitChar sep t = t.takeWhile (· ≠ sep) :: splitRest sep t := by
  induction t with
  | nil => simp [splitChar, splitRest, List.takeWhile, List.dropWhile]
  | cons c t ih =>
    by_cases h : c = sep
    · subst h
      simp [splitChar, splitRest, List.takeWhile, List.dropWhile]
    · simp only [splitChar, h, if_false]
      rw [ih]
      simp [List.takeWhile, List.dropWhile, h, splitRest]

theorem splitChar_append (sep : Char) (z : List Char) :
    ∀ x : List Char, splitChar sep (x ++ sep :: z) = splitChar sep x ++ splitChar sep z := by
  intro x
  induction x with
  | nil => simp [splitChar]
  | cons c t ih =>
    by_cases h : c = sep
    · subst h
      simp [splitChar, ih]
    · simp only [List.cons_append, splitChar, h, if_false, List.append_eq]
      obtain ⟨hd, tl, hx⟩ := List.exists_cons_of_ne_nil (splitChar_ne_nil sep t)
      rw [ih, hx]
      simp

/-- Skipping an empty chunk: `filterMap` form of one match attempt. -/
def chunkOpt (chunk : List Char) : Option ArgItem :=
  if chunk.isEmpty then none else some (chunkToItem chunk)

theorem argItems_eq_split (s : List Char) :
    argItems s = (splitChar '|' s).filterMap chunkOpt := by
  induction s using argItems.induct with
  | case1 => simp [argItems, splitChar, chunkOpt]
  | case2 t ih =>
    simp [argItems, splitChar, chunkOpt, ih]
  | case3 c t h ih =>
    rw [argItems]
    simp only [h, if_false]
    have htake : (c :: t).takeWhile (· ≠ '|') = c :: t.takeWhile (· ≠ '|') := by
      simp [List.takeWhile, h]
    have hchunk : chunkOpt (c :: t.takeWhile (· ≠ '|')) =
        some (chunkToItem (c :: t.takeWhile (· ≠ '|'))) := by
      simp [chunkOpt]
    rw [splitChar_eq_takeWhile, htake, List.filterMap_cons_some hchunk]
    congr 1
    unfold splitRest
    have hdrop : (c :: t).dropWhile (· ≠ '|') = t.dropWhile (· ≠ '|') := by
      simp [List.dropWhile, h]
    rw [hdrop]
    cases hd : t.dropWhile (· ≠ '|') with
    | nil =>
      simp [barTail, argItems]
    | cons d r =>
      have hdbar : d = '|' := by
        have := dropWhile_head_false hd
        simpa using this
      subst hdbar
      rw [hd] at ih
      simpa [barTail] using ih

theorem toList_append (s t : String) : (s ++ t).toList = s.toList ++ t.toList := by
  simp [String.toList, String.data_append]

theorem applyItems_lookup_pos_lt (strip : Bool) :
    ∀ (items : List ArgItem) (p q : Nat) (m : List (ArgKey × String)), q < p →
      alookup (applyItems strip p items m) (.pos q) = alookup m (.pos q) := by
  intro items
  induction items with
  | nil => intro p q m _; rfl
  | cons it rest ih =>
    intro p q m h
    cases it with
    | named k v =>
      rw [applyItems, ih (p + 1) q _ (by omega)]
      exact alookup_ainsert_ne _ _ _ _ (by simp)
    | positional v =>
      rw [applyItems, ih (p + 1) q _ (by omega)]
      exact alookup_ainsert_ne _ _ _ _ (by simp; omega)

theorem applyItems_get_positional (strip : Bool) :
    ∀ (items : List ArgItem) (p : Nat) (m : List (ArgKey × String)) (i : Nat) (v : String),
      items.get? i = some (.positional v) →
      alookup (applyItems strip p items m) (.pos (p + i)) = some (stripVal strip v) := by
  intro items
  induction items with
  | nil => intro p m i v h; simp at h
  | cons it rest ih =>
    intro p m i v h
    cases i with
    | zero =>
      have hit : it = .positional v := by simpa using h
      subst hit
      have hres : alookup (applyItems strip (p + 1) rest
          (ainsert m (.pos p) (stripVal strip v))) (ArgKey.pos p) =
          some (stripVal strip v) := by
        rw [applyItems_lookup_pos_lt strip rest (p + 1) p _ (by omega)]
        exact alookup_ainsert_self _ _ _
      rw [applyItems]
      exact hres
    | succ i =>
      have hg : rest.get? i = some (.positional v) := by simpa using h
      have hidx : p + (i + 1) = (p + 1) + i := by omega
      cases it with
      | named k w =>
        rw [applyItems, hidx]
        exact ih (p + 1) _ i v hg
      | positional w =>
        rw [applyItems, hidx]
        exact ih (p + 1) _ i v hg

/-- The value of the last `name=value` item with the given key in an item
sequence, if any: repeated assignments to one dict key keep the last. -/
def lastNamed (k : String) : List ArgItem → Option String
  | [] => none
  | it :: rest =>
    match lastNamed k rest with
    | some w => some w
    | none =>
      match it with
      | .named k' v => if k' = k then some v else none
      | _ => none

theorem applyItems_lookup_name (strip : Bool) (k : String) :
    ∀ (items : List ArgItem) (p : Nat) (m : List (ArgKey × String)),
      alookup (applyItems strip p items m) (.name k) =
        match lastNamed k items with
        | some v => some (stripVal strip v)
        | none => alookup m (.name k) := by
  intro items
  induction items with
  | nil => intro p m; rfl
  | cons it rest ih =>
    intro p m
    cases it with
    | named k' v =>
      rw [applyItems, ih]
      cases hl : lastNamed k rest with
      | some w => simp [lastNamed, hl]
      | none =>
        simp only [lastNamed, hl]
        by_cases hk : k' = k
        · subst hk
          simp [alookup_ainsert_self]
        · rw [alookup_ainsert_ne _ _ _ _
            (by simp only [ne_eq, ArgKey.name.injEq]; exact Ne.symm hk)]
          simp [hk]
    | positional v =>
      rw [applyItems, ih]
      have hnp : alookup (ainsert m (.pos p) (stripVal strip v)) (.name k) =
          alookup m (.name k) := alookup_ainsert_ne _ _ _ _ (by simp)
      cases hl : lastNamed k rest with
      | some w => simp [lastNamed, hl]
      | none => simp [lastNamed, hl, hnp]

/-- The indexing described by the claim for C7: a bare item would be
assigned the next index counting only the positional items seen so far,
named items not advancing the counter. -/
def claimApplyItems (strip : Bool) : Nat → List ArgItem → List (ArgKey × String) →
    List (ArgKey × String)
  | _, [], m => m
  | p, .named k v :: rest, m =>
    claimApplyItems strip p rest (ainsert m (.name k) (stripVal strip v))
  | p, .positional v :: rest, m =>
    claimApplyItems strip (p + 1) rest (ainsert m (.pos p) (stripVal strip v))

/-- `parse_args` as the claim for C7 describes it (positional indices count
positional items only). -/
def claimParseArgs (strip : Bool) (s : String) : List (ArgKey × String) :=
  claimApplyItems strip 0 (argItems s.toList) []

/-- `parse_args` evaluated through the per-chunk form of the scan, which is
computable by the kernel. -/
theorem parseArgs_eval (strip : Bool) (s : String) :
    parseArgs strip s =
      applyItems strip 0 ((splitChar '|' s.toList).filterMap chunkOpt) [] := by
  rw [parseArgs, argItems_eq_split]

theorem claimParseArgs_eval (strip : Bool) (s : String) :
    claimParseArgs strip s =
      claimApplyItems strip 0 ((splitChar '|' s.toList).filterMap chunkOpt) [] := by
  rw [claimParseArgs, argItems_eq_split]

/-- C7, counterexample: on `"a=1|b"` the claim's indexing puts the bare item
`b` at integer key 0 (it is the first positional item), but
`LabGen.parse_args` increments `position` on every item, named ones
included, so the code binds `b` to integer key 1 and leaves key 0 absent. -/
theorem c7_counterexample :
    alookup (claimParseArgs true "a=1|b") (ArgKey.pos 0) = some "b" ∧
    alookup (parseArgs true "a=1|b") (ArgKey.pos 0) = none ∧
    alookup (parseArgs true "a=1|b") (ArgKey.pos 1) = some "b" ∧
    alookup (parseArgs true "a=1|b") (ArgKey.name "a") = some "1" := by
  rw [parseArgs_eval, claimParseArgs_eval]
  decide

/-- C7 (amended): each `name=value` item is stored under its string key
(the last occurrence of a repeated name winning), and each bare item is
stored under the integer key equal to the number of items of either kind
preceding it — the position counter advances on named items as well. -/
theorem c7_argument_map_keys (strip : Bool) (s : String) :
    (∀ i v, (argItems s.toList).get? i = some (.positional v) →
      alookup (parseArgs strip s) (.pos i) = some (stripVal strip v)) ∧
    (∀ k, alookup (parseArgs strip s) (.name k) =
      (lastNamed k (argItems s.toList)).map (stripVal strip)) := by
  constructor
  · intro i v h
    have hp := applyItems_get_positional strip (argItems s.toList) 0 [] i v h
    simpa using hp
  · intro k
    rw [parseArgs, applyItems_lookup_name strip k (argItems s.toList) 0 []]
    cases lastNamed k (argItems s.toList) <;> simp [alookup]

/-- Witness for the amended C7 theorem at the concrete input `"a=1|b"`. -/
theorem c7_argument_map_keys_witness :
    alookup (parseArgs true "a=1|b") (ArgKey.pos 1) = some (stripVal true "b") :=
  (c7_argument_map_keys true "a=1|b").1 1 "b" (by rw [argItems_eq_split]; decide)

/-- C10: an empty value between two consecutive `|` separators is a position
where neither alternative of `ARGS_ITEM_PATTERN` matches, so the scan skips
it: it produces no entry (not an empty-string entry), does not advance the
position counter, and leaves the result exactly as if the extra separator
were absent. -/
theorem c10_empty_item_dropped (strip : Bool) (x y : String) :
    parseArgs strip (x ++ "||" ++ y) = parseArgs strip (x ++ "|" ++ y) := by
  unfold parseArgs
  congr 1
  rw [argItems_eq_split, argItems_eq_split]
  have hbb : ("||" : String).toList = ['|', '|'] := rfl
  have hb : ("|" : String).toList = ['|'] := rfl
  have h1 : (x ++ "||" ++ y).toList = x.toList ++ '|' :: ('|' :: y.toList) := by
    rw [toList_append, toList_append, hbb]
    simp
  have h2 : (x ++ "|" ++ y).toList = x.toList ++ '|' :: y.toList := by
    rw [toList_append, toList_append, hb]
    simp
  rw [h1, h2, splitChar_append, splitChar_append]
  have h3 : splitChar '|' ('|' :: y.toList) = [] :: splitChar '|' y.toList := by
    simp [splitChar]
  have h4 : chunkOpt ([] : List Char) = none := rfl
  rw [h3, List.filterMap_append, List.filterMap_append, List.filterMap_cons_none h4]

/-- Witness for the C10 theorem at the concrete input `"a||b"`. -/
theorem c10_empty_item_dropped_witness :
    parseArgs true ("a" ++ "||" ++ "b") = parseArgs true ("a" ++ "|" ++ "b") :=
  c10_empty_item_dropped true "a" "b"

/-! ## Template Registry & Expander

`Template.parse_body` splits the raw block body into lines, keeping only
non-empty ones; `@@` lines register options, `++` lines declare parameters
(assigned zero-based positions in declaration order), and the remaining
lines joined by newlines form the substitutable body.
`Template.interpolate_params` substitutes each `%%name` placeholder
(`PARAM_INTERPOLATION_PATTERN = %%([\w_]*)`), and
`LabGen._resolve_templates` recursively expands `#name||args||` invocation
sites (`Template.INVOCATION_PATTERN`). -/

/-- Errors raised during interpolation and recursive expansion (all are
`LabGenError` in the source, distinguished here by their message). The
`outOfFuel` value models exhaustion of the interpreter call stack, which is
the only bound on unguarded recursion. -/
inductive RErr where
  | undefinedParam (p : String) : RErr
  | unresolvedParam (p : String) : RErr
  | unknownTemplate (nm : String) : RErr
  | directRecursion : RErr
  | outOfFuel : RErr
deriving DecidableEq, Repr

/-- Accumulator of the `Template.parse_body` loop. -/
structure PBState where
  params : List (String × Option String)
  positions : List (String × Nat)
  bodyLines : List String
  opts : List String
  count : Nat

def pbInit : PBState := ⟨[], [], [], [], 0⟩

/-- `kv_pair[1].strip() or kv_pair[1]`: the stripped default text, unless
stripping leaves it empty, in which case the raw text is kept. -/
def stripOrRaw (v : String) : String :=
  if pyStrip v = "" then v else pyStrip v

/-- Python `s.startswith(pre)`. -/
def pyStartsWith (pre s : String) : Bool :=
  pre.toList.isPrefixOf s.toList

/-- Python `s[n:]` for a non-negative index. -/
def pyDrop (n : Nat) (s : String) : String :=
  (s.toList.drop n).asString

/-- One iteration of the `Template.parse_body` loop over the non-empty
lines: an `@@` line registers an option flag, a `++` line declares a
parameter (bare name, i.e. no `=`, means required and is stored as `None`),
any other line is a body line.  `params_count` advances once per parameter
line. -/
def pbStep (st : PBState) (line : String) : PBState :=
  if pyStartsWith "@@" line then
    { st with opts := st.opts ++ [pyDrop 2 line] }
  else if pyStartsWith "++" line then
    let kv := splitFirst '=' (pyDrop 2 line).toList
    let key := pyStrip kv.1.asString
    let value := kv.2.map (fun r => stripOrRaw r.asString)
    { st with params := ainsert st.params key value,
              positions := ainsert st.positions key st.count,
              count := st.count + 1 }
  else { st with bodyLines := st.bodyLines ++ [line] }

/-- A parsed template: name, substitutable body, parameter map
(name to default, `none` meaning required), position index and options. -/
structure Tmpl where
  name : String
  body : String
  params : List (String × Option String)
  positions : List (String × Nat)
  opts : List String

/-- `Template.parse_body`: the loop over the non-empty lines of the raw
block body. -/
def tmplParse (raw : String) : PBState :=
  ((pySplit '\n' raw).filter (· ≠ "")).foldl pbStep pbInit

/-- `Template.__init__`: `parse_body`, then `_apply_options` (the
`wrap-newlines` option surrounds the joined body with one newline on each
side). -/
def mkTemplate (nm raw : String) : Tmpl :=
  ⟨nm,
   if (tmplParse raw).opts.contains "wrap-newlines" then
     "\n" ++ String.intercalate "\n" (tmplParse raw).bodyLines ++ "\n"
   else String.intercalate "\n" (tmplParse raw).bodyLines,
   (tmplParse raw).params, (tmplParse raw).positions, (tmplParse raw).opts⟩

/-- `substitution.get(key)` on the call-site argument map. -/
def substGet (subst : List (ArgKey × String)) (k : ArgKey) : Option String :=
  alookup subst k

/-- `self.param_map.get(key)`: the parameter map is keyed by the parameter
name strings, so a lookup under an integer position key always misses, and
a required parameter (stored as `None`) behaves like an absent key. -/
def paramMapGet (t : Tmpl) (k : ArgKey) : Option String :=
  match k with
  | .name s => (alookup t.params s).join
  | .pos _ => none

/-- The nested loops of `interceptor_func` in `interpolate_params`: walk the
locations, and inside each location the keys, returning the first value
found. -/
def probeLocations : List (ArgKey → Option String) → List ArgKey → Option String
  | [], _ => none
  | loc :: rest, keys =>
    match keys.findSome? loc with
    | some v => some v
    | none => probeLocations rest keys

/-- Resolution of one `%%param` placeholder: an undeclared name fails
(`parameter not defined`); otherwise the locations
`(substitution, param_map)` are probed with the keys `(name, position)`,
and exhaustion fails (`no value found for param`). -/
def resolveParam (t : Tmpl) (subst : List (ArgKey × String)) (param : String) :
    Except RErr String :=
  match alookup t.positions param with
  | none => .error (.undefinedParam param)
  | some p =>
    match probeLocations [substGet subst, paramMapGet t] [.name param, .pos p] with
    | some v => .ok v
    | none => .error (.unresolvedParam param)

/-- `PARAM_INTERPOLATION_PATTERN.sub`: scan left to right for `%%`, read the
following run of word characters as the parameter name (possibly empty),
splice the resolved value, and continue after the name. -/
def interpChars (t : Tmpl) (subst : List (ArgKey × String)) :
    List Char → Except RErr (List Char)
  | '%' :: '%' :: rest => do
      let v ← resolveParam t subst (rest.takeWhile isWordChar).asString
      let tail ← interpChars t subst (rest.dropWhile isWordChar)
      .ok (v.toList ++ tail)
  | c :: rest => do
      let tail ← interpChars t subst rest
      .ok (c :: tail)
  | [] => .ok []
termination_by l => l.length
decreasing_by
  · have := length_dropWhile_le' isWordChar rest
    simp only [List.length_cons]
    omega
  · simp only [List.length_cons]
    omega

/-- `Template.interpolate_params`. -/
def interpolate (t : Tmpl) (subst : List (ArgKey × String)) : Except RErr String :=
  (interpChars t subst t.body.toList).map List.asString

/-- The parameter names of the `%%name` placeholders of a text, in scan
order. -/
def placeholdersOf : List Char → List String
  | '%' :: '%' :: rest =>
      (rest.takeWhile isWordChar).asString :: placeholdersOf (rest.dropWhile isWordChar)
  | _ :: rest => placeholdersOf rest
  | [] => []
termination_by l => l.length
decreasing_by
  · have := length_dropWhile_le' isWordChar rest
    simp only [List.length_cons]
    omega
  · simp only [List.length_cons]
    omega

/-- Does the text contain the two-character placeholder trigger `%%`? -/
def hasPP : List Char → Bool
  | '%' :: '%' :: _ => true
  | _ :: rest => hasPP rest
  | [] => false

/-! Step equations for the placeholder scanners, stated separately because
the overlapping match patterns make the generated equations conditional. -/

theorem asString_toList (s : String) : s.toList.asString = s := rfl

theorem placeholdersOf_nil : placeholdersOf [] = [] := by
  rw [placeholdersOf.eq_def]

theorem placeholdersOf_pp (rest : List Char) :
    placeholdersOf ('%' :: '%' :: rest) =
      (rest.takeWhile isWordChar).asString ::
        placeholdersOf (rest.dropWhile isWordChar) := by
  rw [placeholdersOf.eq_def]
  split
  · rename_i r heq
    injection heq with e1 e2
    injection e2 with e3 e4
    subst e4
    rfl
  · rename_i head' rest' hg heq
    injection heq with e1 e2
    exact (hg rest e1.symm e2.symm).elim
  · rename_i heq
    exact List.noConfusion heq

theorem placeholdersOf_cons_ne (head : Char) (rest : List Char)
    (h : ∀ r, head = '%' → rest = '%' :: r → False) :
    placeholdersOf (head :: rest) = placeholdersOf rest := by
  rw [placeholdersOf.eq_def]
  split
  · rename_i r heq
    injection heq with e1 e2
    exact (h r e1 e2).elim
  · rename_i head' rest' hg heq
    injection heq with e1 e2
    subst e2
    rfl
  · rename_i heq
    exact List.noConfusion heq

theorem hasPP_nil : hasPP [] = false := by
  rw [hasPP.eq_def]

theorem hasPP_pp (rest : List Char) : hasPP ('%' :: '%' :: rest) = true := by
  rw [hasPP.eq_def]
  split
  · rfl
  · rename_i head' rest' hg heq
    injection heq with e1 e2
    exact (hg rest e1.symm e2.symm).elim
  · rename_i heq
    exact List.noConfusion heq

theorem hasPP_cons_ne (head : Char) (rest : List Char)
    (h : ∀ r, head = '%' → rest = '%' :: r → False) :
    hasPP (head :: rest) = hasPP rest := by
  rw [hasPP.eq_def]
  split
  · rename_i r heq
    injection heq with e1 e2
    exact (h r e1 e2).elim
  · rename_i head' rest' hg heq
    injection heq with e1 e2
    subst e2
    rfl
  · rename_i heq
    exact List.noConfusion heq

theorem interpChars_nil (t : Tmpl) (subst : List (ArgKey × String)) :
    interpChars t subst [] = .ok [] := by
  rw [interpChars.eq_def]

theorem interpChars_pp (t : Tmpl) (subst : List (ArgKey × String)) (rest : List Char) :
    interpChars t subst ('%' :: '%' :: rest) =
      (do
        let v ← resolveParam t subst (rest.takeWhile isWordChar).asString
        let tail ← interpChars t subst (rest.dropWhile isWordChar)
        .ok (v.toList ++ tail)) := by
  rw [interpChars.eq_def]
  split
  · rename_i r heq
    injection heq with e1 e2
    injection e2 with e3 e4
    subst e4
    rfl
  · rename_i head' rest' hg heq
    injection heq with e1 e2
    exact (hg rest e1.symm e2.symm).elim
  · rename_i heq
    exact List.noConfusion heq

theorem interpChars_cons_ne (t : Tmpl) (subst : List (ArgKey × String))
    (head : Char) (rest : List Char)
    (h : ∀ r, head = '%' → rest = '%' :: r → False) :
    interpChars t subst (head :: rest) =
      (do
        let tail ← interpChars t subst rest
        .ok (head :: tail)) := by
  rw [interpChars.eq_def]
  split
  · rename_i r heq
    injection heq with e1 e2
    exact (h r e1 e2).elim
  · rename_i head' rest' hg heq
    injection heq with e1 e2
    subst e1
    subst e2
    rfl
  · rename_i heq
    exact List.noConfusion heq

/-- Substituting into a text without `%%` leaves it unchanged: the
interpolation pattern has no match. -/
theorem interpChars_noPP (t : Tmpl) (subst : List (ArgKey × String)) :
    ∀ l : List Char, hasPP l = false → interpChars t subst l = .ok l := by
  intro l
  induction l using hasPP.induct with
  | case1 rest =>
    intro h
    rw [hasPP_pp] at h
    exact absurd h (by simp)
  | case2 head rest hg ih =>
    intro h
    rw [hasPP_cons_ne head rest hg] at h
    rw [interpChars_cons_ne t subst head rest hg, ih h]
    rfl
  | case3 =>
    intro _
    exact interpChars_nil t subst

/-- `interpolate_params` on a template whose body has no `%%` returns the
body unchanged, under any substitution. -/
theorem interpolate_noPP (t : Tmpl) (subst : List (ArgKey × String))
    (h : hasPP t.body.toList = false) : interpolate t subst = .ok t.body := by
  rw [interpolate, interpChars_noPP t subst _ h]
  rfl

/-- The interceptor's nested probe loops flattened: for a declared
parameter, the result is the first hit of the four probes in order. -/
theorem resolveParam_probe_order (t : Tmpl) (subst : List (ArgKey × String))
    (param : String) (p : Nat) (h : alookup t.positions param = some p) :
    resolveParam t subst param =
      match [substGet subst (.name param), substGet subst (.pos p),
             paramMapGet t (.name param), paramMapGet t (.pos p)].findSome? id with
      | some v => .ok v
      | none => .error (.unresolvedParam param) := by
  unfold resolveParam
  rw [h]
  have h4 : paramMapGet t (.pos p) = none := rfl
  cases h1 : substGet subst (.name param) with
  | some v => simp [probeLocations, h1, List.findSome?_cons]
  | none =>
    cases h2 : substGet subst (.pos p) with
    | some v => simp [probeLocations, h1, h2, List.findSome?_cons]
    | none =>
      cases h3 : paramMapGet t (.name param) with
      | some v =>
        simp [probeLocations, h1, h2, h3, h4, List.findSome?_cons, List.findSome?_nil]
      | none =>
        simp [probeLocations, h1, h2, h3, h4, List.findSome?_cons, List.findSome?_nil]

/-- C1: for a `%%name` placeholder whose name is a declared parameter, the
interceptor returns the first value found probing, in order: the call-site
substitution under the name, the call-site substitution under the declared
zero-based position as an integer key, the template's own defaults under the
name, and the template's own defaults under the position (the last probe,
an integer key in the string-keyed parameter dict, never finds anything);
if all four probes miss, it raises `UnresolvedParameter`. -/
theorem c1_resolution_order (t : Tmpl) (subst : List (ArgKey × String))
    (param : String) (p : Nat) (h : alookup t.positions param = some p) :
    resolveParam t subst param =
      match [substGet subst (.name param), substGet subst (.pos p),
             paramMapGet t (.name param), paramMapGet t (.pos p)].findSome? id with
      | some v => .ok v
      | none => .error (.unresolvedParam param) :=
  resolveParam_probe_order t subst param p h

/-- A template declaring `x` with default `1`, body `%%x`. -/
def tmplC1 : Tmpl := mkTemplate "t" "++x=1\n%%x"

/-- Witness for the C1 theorem: parameter `x` sits at position 0; a
substitution supplying position 0 overrides the template default. -/
theorem c1_resolution_order_witness :
    resolveParam tmplC1 [(ArgKey.pos 0, "7")] "x" = .ok "7" := by
  rw [c1_resolution_order tmplC1 [(ArgKey.pos 0, "7")] "x" 0 (by decide)]
  rfl

/-- A required parameter supplied neither by name nor by position: all four
probes miss (the template's own map holds `None` for a required parameter),
so the interceptor raises `UnresolvedParameter` rather than substituting
anything. -/
theorem resolveParam_required (t : Tmpl) (subst : List (ArgKey × String))
    (x : String) (p : Nat)
    (hreq : alookup t.params x = some none)
    (hpos : alookup t.positions x = some p)
    (h1 : alookup subst (.name x) = none)
    (h2 : alookup subst (.pos p) = none) :
    resolveParam t subst x = .error (.unresolvedParam x) := by
  rw [resolveParam_probe_order t subst x p hpos]
  simp [substGet, paramMapGet, h1, h2, hreq, List.findSome?_cons, List.findSome?_nil,
    Option.join]

/-- A declared parameter resolves to a value or fails with
`UnresolvedParameter`, never with `UndefinedParameter`. -/
theorem resolveParam_declared (t : Tmpl) (subst : List (ArgKey × String))
    (n : String) (h : (alookup t.positions n).isSome) :
    (∃ v, resolveParam t subst n = .ok v) ∨
      resolveParam t subst n = .error (.unresolvedParam n) := by
  obtain ⟨p, hp⟩ := Option.isSome_iff_exists.mp h
  rw [resolveParam_probe_order t subst n p hp]
  cases hf : [substGet subst (.name n), substGet subst (.pos p),
      paramMapGet t (.name n), paramMapGet t (.pos p)].findSome? id with
  | none =>
    right
    rfl
  | some v =>
    left
    exact ⟨v, rfl⟩

/-- A template declaring required parameter `x`, body `hello` (no
placeholder). -/
def tmplC5 : Tmpl := mkTemplate "t" "++x\nhello"

/-- C5, counterexample: for a template with a required parameter whose body
does not mention it, interpolating under the empty substitution succeeds —
no `UnresolvedParameter` error is raised, contradicting the claim as
stated. -/
theorem c5_counterexample :
    alookup tmplC5.params "x" = some none ∧
    interpolate tmplC5 [] = .ok "hello" := by
  constructor
  · decide
  · have hb : tmplC5.body = "hello" := by decide
    have h := interpolate_noPP tmplC5 [] (by decide)
    rw [hb] at h
    exact h

/-- When a required parameter `x` of the template gets no call-site value by
name or position, interpolating any text that contains a `%%x` placeholder,
and whose placeholders all name declared parameters, fails with
`UnresolvedParameter`. -/
theorem interpChars_required_missing (t : Tmpl) (subst : List (ArgKey × String))
    (x : String) (p : Nat)
    (hreq : alookup t.params x = some none)
    (hpos : alookup t.positions x = some p)
    (h1 : alookup subst (.name x) = none)
    (h2 : alookup subst (.pos p) = none) :
    ∀ l : List Char,
      (∀ n ∈ placeholdersOf l, (alookup t.positions n).isSome) →
      x ∈ placeholdersOf l →
      ∃ q, interpChars t subst l = .error (.unresolvedParam q) := by
  intro l
  induction l using placeholdersOf.induct with
  | case1 rest ih =>
    intro hdecl hx
    rw [placeholdersOf_pp] at hdecl hx
    rw [interpChars_pp]
    by_cases hnm : (rest.takeWhile isWordChar).asString = x
    · rw [hnm, resolveParam_required t subst x p hreq hpos h1 h2]
      exact ⟨x, rfl⟩
    · have hd : (alookup t.positions (rest.takeWhile isWordChar).asString).isSome :=
        hdecl _ (by simp)
      rcases resolveParam_declared t subst _ hd with ⟨v, hv⟩ | hv
      · rw [hv]
        have hx' : x ∈ placeholdersOf (rest.dropWhile isWordChar) := by
          rcases List.mem_cons.mp hx with hh | hh
          · exact absurd hh.symm hnm
          · exact hh
        obtain ⟨q, hq⟩ := ih (fun n hn => hdecl n (List.mem_cons_of_mem _ hn)) hx'
        rw [hq]
        exact ⟨q, rfl⟩
      · rw [hv]
        exact ⟨(rest.takeWhile isWordChar).asString, rfl⟩
  | case2 head rest hg ih =>
    intro hdecl hx
    rw [placeholdersOf_cons_ne head rest hg] at hdecl hx
    obtain ⟨q, hq⟩ := ih hdecl hx
    rw [interpChars_cons_ne t subst head rest hg, hq]
    exact ⟨q, rfl⟩
  | case3 =>
    intro _ hx
    rw [placeholdersOf_nil] at hx
    exact absurd hx (List.not_mem_nil x)

/-- C5 (amended): a template with a required parameter, whose body contains
a placeholder for it, and all of whose placeholders name declared
parameters, fails with `UnresolvedParameter` when the substitution supplies
no value for that parameter by name or position; in particular no empty
string is substituted, since interpolation returns no output at all. -/
theorem c5_required_param_fails (t : Tmpl) (subst : List (ArgKey × String))
    (x : String) (p : Nat)
    (hreq : alookup t.params x = some none)
    (hpos : alookup t.positions x = some p)
    (h1 : alookup subst (.name x) = none)
    (h2 : alookup subst (.pos p) = none)
    (hx : x ∈ placeholdersOf t.body.toList)
    (hdecl : ∀ n ∈ placeholdersOf t.body.toList, (alookup t.positions n).isSome) :
    ∃ q, interpolate t subst = .error (.unresolvedParam q) := by
  obtain ⟨q, hq⟩ := interpChars_required_missing t subst x p hreq hpos h1 h2
    t.body.toList hdecl hx
  exact ⟨q, by rw [interpolate, hq]; rfl⟩

/-- A template declaring required parameter `x` with body `%%x`. -/
def tmplC5req : Tmpl := mkTemplate "t" "++x\n%%x"

theorem tmplC5req_placeholders : placeholdersOf tmplC5req.body.toList = ["x"] := by
  have hb : tmplC5req.body.toList = ['%', '%', 'x'] := by decide
  have hd : List.dropWhile isWordChar ['x'] = [] := rfl
  rw [hb, placeholdersOf_pp, hd, placeholdersOf_nil]
  decide

/-- Witness for the amended C5 theorem: template `++x` body `%%x`, empty
substitution. -/
theorem c5_required_param_fails_witness :
    ∃ q, interpolate tmplC5req [] = .error (.unresolvedParam q) :=
  c5_required_param_fails tmplC5req [] "x" 0 (by decide) (by decide) rfl rfl
    (by rw [tmplC5req_placeholders]; decide)
    (by rw [tmplC5req_placeholders]; decide)

/-! ### C9: templates without placeholders -/

/-- The parsed body as the claim for C9 words it: all non-parameter,
non-option lines of the raw block joined by newlines (empty lines kept).
Stated from the claim, for comparison with the code. -/
def claimedBodyJoin (raw : String) : String :=
  String.intercalate "\n" ((pySplit '\n' raw).filter
    (fun l => !(pyStartsWith "@@" l) && !(pyStartsWith "++" l)))

theorem foldl_pbStep_bodyLines (lines : List String) :
    ∀ st : PBState, (lines.foldl pbStep st).bodyLines =
      st.bodyLines ++ lines.filter
        (fun l => !(pyStartsWith "@@" l) && !(pyStartsWith "++" l)) := by
  induction lines with
  | nil => intro st; simp
  | cons l rest ih =>
    intro st
    rw [List.foldl_cons, ih]
    by_cases h1 : pyStartsWith "@@" l
    · simp [pbStep, h1, List.filter]
    · by_cases h2 : pyStartsWith "++" l
      · simp [pbStep, h1, h2, List.filter]
      · simp [pbStep, h1, h2, List.filter]

theorem mkTemplate_body_of_no_opts (nm raw : String)
    (hopts : (mkTemplate nm raw).opts = []) :
    (mkTemplate nm raw).body = String.intercalate "\n" (tmplParse raw).bodyLines := by
  have h : (tmplParse raw).opts = [] := hopts
  simp [mkTemplate, h]

/-- The template built from raw body `a`, blank line, `b`. -/
def tmplC9 : Tmpl := mkTemplate "t" "a\n\nb"

/-- C9, counterexample: `parse_body` drops empty lines, so the raw body
`a`, blank, `b` parses to `a\nb` and expands to `a\nb`, while the claim's
description (all non-parameter, non-option lines joined) predicts the
unchanged text with the blank line kept. -/
theorem c9_counterexample :
    interpolate tmplC9 [] = .ok "a\nb" ∧
    claimedBodyJoin "a\n\nb" = "a\n\nb" ∧
    ("a\nb" : String) ≠ "a\n\nb" := by
  refine ⟨?_, by decide, by decide⟩
  have hb : tmplC9.body = "a\nb" := by decide
  have h := interpolate_noPP tmplC9 [] (by decide)
  rw [hb] at h
  exact h

/-- C9 (amended): a template whose body contains no `%%` and which sets no
option flags expands under any substitution to its parsed body unchanged —
the parsed body being the non-empty, non-parameter, non-option lines of the
raw block joined by newlines. -/
theorem c9_no_placeholder_unchanged (nm raw : String) (subst : List (ArgKey × String))
    (hopts : (mkTemplate nm raw).opts = [])
    (hnp : hasPP (mkTemplate nm raw).body.toList = false) :
    interpolate (mkTemplate nm raw) subst = .ok (mkTemplate nm raw).body ∧
    (mkTemplate nm raw).body =
      String.intercalate "\n" (((pySplit '\n' raw).filter (· ≠ "")).filter
        (fun l => !(pyStartsWith "@@" l) && !(pyStartsWith "++" l))) := by
  constructor
  · exact interpolate_noPP _ subst hnp
  · rw [mkTemplate_body_of_no_opts nm raw hopts, tmplParse, foldl_pbStep_bodyLines]
    rfl

/-- Witness for the amended C9 theorem: raw body `hello`, `world` with no
options and no placeholders. -/
theorem c9_no_placeholder_unchanged_witness :
    interpolate (mkTemplate "t" "hello\nworld") [] =
      .ok (mkTemplate "t" "hello\nworld").body ∧
    (mkTemplate "t" "hello\nworld").body =
      String.intercalate "\n" (((pySplit '\n' "hello\nworld").filter (· ≠ "")).filter
        (fun l => !(pyStartsWith "@@" l) && !(pyStartsWith "++" l))) :=
  c9_no_placeholder_unchanged "t" "hello\nworld" [] (by decide) (by decide)

/-! ## Recursive expansion (`LabGen._resolve_templates`)

`Template.INVOCATION_PATTERN = #([\w_]+)(?:\s*\|\|(.*?)\|\||)`: an
invocation site is `#` followed by a non-empty run of word characters,
optionally followed by whitespace and a `||`-delimited argument text (lazy,
up to the first closing `||`); when no closing `||` exists the optional
group matches empty and the scan resumes right after the name. -/

/-- Split at the first occurrence of `||` (the lazy `(.*?)\|\|`):
the text before it and the remainder after it. -/
def splitAtBars : List Char → Option (List Char × List Char)
  | [] => none
  | '|' :: '|' :: rest => some ([], rest)
  | c :: rest => (splitAtBars rest).map (fun pr => (c :: pr.1, pr.2))

/-- The optional argument group after an invocation name: on
`\s*\|\|args\|\|` returns the argument text and the remainder after the
closing `||`; otherwise the group matches empty and the scan position stays
right after the name. -/
def parseInvArgs (l : List Char) : Option String × List Char :=
  match l.dropWhile isSpaceChar with
  | '|' :: '|' :: rest =>
    match splitAtBars rest with
    | some (args, rem) => (some args.asString, rem)
    | none => (none, l)
  | _ => (none, l)

theorem splitAtBars_cons_ne (c : Char) (rest : List Char)
    (h : ∀ r, c = '|' → rest = '|' :: r → False) :
    splitAtBars (c :: rest) = (splitAtBars rest).map (fun pr => (c :: pr.1, pr.2)) := by
  rw [splitAtBars.eq_def]
  split
  · rename_i heq
    exact List.noConfusion heq
  · rename_i r heq
    injection heq with e1 e2
    exact (h r e1 e2).elim
  · rename_i c' rest' hg heq
    injection heq with e1 e2
    subst e1
    subst e2
    rfl

theorem splitAtBars_snd_le :
    ∀ {l a r : List Char}, splitAtBars l = some (a, r) → r.length ≤ l.length := by
  intro l
  induction l using splitAtBars.induct with
  | case1 =>
    intro a r h
    simp [splitAtBars] at h
  | case2 rest =>
    intro a r h
    simp [splitAtBars] at h
    obtain ⟨_, h2⟩ := h
    subst h2
    simp only [List.length_cons]
    omega
  | case3 c rest hg ih =>
    intro a r h
    rw [splitAtBars_cons_ne c rest hg] at h
    cases hs : splitAtBars rest with
    | none =>
      rw [hs] at h
      simp at h
    | some pr =>
      rw [hs] at h
      simp at h
      obtain ⟨_, h2⟩ := h
      have hle := ih hs
      subst h2
      simp
      omega

theorem parseInvArgs_snd_le (l : List Char) : (parseInvArgs l).2.length ≤ l.length := by
  rw [parseInvArgs.eq_def]
  split
  · rename_i rest heq
    split
    · rename_i args rem hsp
      simp only []
      have h1 := splitAtBars_snd_le hsp
      have h2 := length_dropWhile_le' isSpaceChar l
      rw [heq] at h2
      simp only [List.length_cons] at h2
      omega
    · simp
  · simp

/-- `lastIs outer name`: the guard
`outer_templates and template_name == outer_templates[-1]` — the invocation
name equals the immediately enclosing caller, the top of the expansion call
stack. -/
def lastIs (outer : List String) (nm : String) : Bool :=
  match outer.getLast? with
  | some tname => tname == nm
  | none => false

/-- `LabGen._resolve_templates(string, outer_templates, recursion_level)`,
with explicit fuel modelling the interpreter call stack (each nested
expansion descends one level; fuel 0 models stack exhaustion, the only
thing that stops an unguarded cycle).  The regex sub scans left to right:
at `#name`, the guard `lastIs` is checked first, then the template is
looked up (`KeyError` when unknown), its argument text parsed, the
template's body interpolated under the resulting substitution, the result
recursively resolved with the name pushed on the stack, and the scan then
continues after the site. -/
def resolveT (tmpls : List (String × Tmpl)) : Nat → List String → List Char →
    Except RErr (List Char)
  | 0, _, _ => .error .outOfFuel
  | _ + 1, _, [] => .ok []
  | fuel + 1, outer, c :: rest =>
    if c = '#' then
      if (rest.takeWhile isWordChar).isEmpty then do
        let tail ← resolveT tmpls (fuel + 1) outer rest
        .ok ('#' :: tail)
      else
        let nm := (rest.takeWhile isWordChar).asString
        let pr := parseInvArgs (rest.dropWhile isWordChar)
        if lastIs outer nm then .error .directRecursion
        else
          match alookup tmpls nm with
          | none => .error (.unknownTemplate nm)
          | some tmpl => do
            let body ← interpolate tmpl (parseArgs true (pr.1.getD ""))
            let expanded ← resolveT tmpls fuel (outer ++ [nm]) body.toList
            let tail ← resolveT tmpls (fuel + 1) outer pr.2
            .ok (expanded ++ tail)
    else do
      let tail ← resolveT tmpls (fuel + 1) outer rest
      .ok (c :: tail)
termination_by fuel _ l => (fuel, l.length)
decreasing_by
  · apply Prod.Lex.right
    simp only [List.length_cons]
    omega
  · apply Prod.Lex.left
    omega
  · apply Prod.Lex.right
    have h1 := parseInvArgs_snd_le (rest.dropWhile isWordChar)
    have h2 := length_dropWhile_le' isWordChar rest
    simp only [List.length_cons]
    omega
  · apply Prod.Lex.right
    simp only [List.length_cons]
    omega

/-- One scan step at an invocation site `#name...` (non-empty name). -/
theorem resolveT_step_inv (tmpls : List (String × Tmpl)) (fuel : Nat)
    (outer : List String) (rest : List Char)
    (hne : (rest.takeWhile isWordChar).isEmpty = false) :
    resolveT tmpls (fuel + 1) outer ('#' :: rest) =
      (if lastIs outer ((rest.takeWhile isWordChar).asString) then
        .error .directRecursion
      else
        match alookup tmpls ((rest.takeWhile isWordChar).asString) with
        | none => .error (.unknownTemplate ((rest.takeWhile isWordChar).asString))
        | some tmpl => do
            let body ← interpolate tmpl
              (parseArgs true ((parseInvArgs (rest.dropWhile isWordChar)).1.getD ""))
            let expanded ← resolveT tmpls fuel
              (outer ++ [(rest.takeWhile isWordChar).asString]) body.toList
            let tail ← resolveT tmpls (fuel + 1) outer
              (parseInvArgs (rest.dropWhile isWordChar)).2
            .ok (expanded ++ tail)) := by
  simp only [resolveT]
  simp [hne]

/-- The self-invoking template: `#a` whose body is the invocation
`#a||x=1||`. -/
def tmplSelfA : Tmpl := mkTemplate "a" "#a||x=1||"

def tmplsSelf : List (String × Tmpl) := [("a", tmplSelfA)]

/-- The two-hop cycle: template `a` invokes `#b`, template `b` invokes
`#a`. -/
def tmplABa : Tmpl := mkTemplate "a" "#b"

def tmplABb : Tmpl := mkTemplate "b" "#a"

def tmplsAB : List (String × Tmpl) := [("a", tmplABa), ("b", tmplABb)]

theorem lastIs_concat (outer : List String) (x y : String) :
    lastIs (outer ++ [x]) y = (x == y) := by
  simp [lastIs, List.getLast?_concat]

/-- In the two-hop cycle the guard never fires: whoever is about to be
expanded differs from the top of the stack, so expansion only ends by
exhausting the stack. -/
theorem resolveT_ab_no_guard : ∀ f : Nat,
    (∀ outer, lastIs outer "a" = false →
      resolveT tmplsAB f outer ("#a".toList) = .error .outOfFuel) ∧
    (∀ outer, lastIs outer "b" = false →
      resolveT tmplsAB f outer ("#b".toList) = .error .outOfFuel) := by
  intro f
  induction f with
  | zero =>
    exact ⟨fun _ _ => by simp [resolveT], fun _ _ => by simp [resolveT]⟩
  | succ f ih =>
    have hba : interpolate tmplABa (parseArgs true "") = .ok "#b" := by
      have hb : tmplABa.body = "#b" := by decide
      have h := interpolate_noPP tmplABa (parseArgs true "") (by decide)
      rw [hb] at h
      exact h
    have hbb : interpolate tmplABb (parseArgs true "") = .ok "#a" := by
      have hb : tmplABb.body = "#a" := by decide
      have h := interpolate_noPP tmplABb (parseArgs true "") (by decide)
      rw [hb] at h
      exact h
    constructor
    · intro outer hlast
      have hrec := ih.2 (outer ++ ["a"]) (by rw [lastIs_concat]; decide)
      have hl : ("#a".toList) = '#' :: ['a'] := rfl
      rw [hl, resolveT_step_inv tmplsAB f outer ['a'] (by decide)]
      have ht : (List.takeWhile isWordChar ['a']).asString = "a" := rfl
      have hd : parseInvArgs (List.dropWhile isWordChar ['a']) = (none, []) := rfl
      rw [ht, hd]
      simp only [hlast, if_false, Bool.false_eq_true]
      have halk : alookup tmplsAB "a" = some tmplABa := rfl
      rw [halk]
      simp only [Option.getD]
      rw [hba]
      simp only [Bind.bind, Except.bind]
      rw [hrec]
    · intro outer hlast
      have hrec := ih.1 (outer ++ ["b"]) (by rw [lastIs_concat]; decide)
      have hl : ("#b".toList) = '#' :: ['b'] := rfl
      rw [hl, resolveT_step_inv tmplsAB f outer ['b'] (by decide)]
      have ht : (List.takeWhile isWordChar ['b']).asString = "b" := rfl
      have hd : parseInvArgs (List.dropWhile isWordChar ['b']) = (none, []) := rfl
      rw [ht, hd]
      simp only [hlast, if_false, Bool.false_eq_true]
      have halk : alookup tmplsAB "b" = some tmplABb := rfl
      rw [halk]
      simp only [Option.getD]
      rw [hbb]
      simp only [Bind.bind, Except.bind]
      rw [hrec]

/-- C4: the recursion guard compares only against the immediately enclosing
caller.  First part: expanding `#a` whose body invokes `#a||x=1||` fails
with `DirectRecursionDetected` (at any stack budget of at least two
levels).  Second part: the two-hop cycle `a` invokes `b` invokes `a` is
never rejected by the guard — at every stack budget it runs to stack
exhaustion instead.  Third part: the guard fires exactly when the name to
be expanded equals the top of the expansion call stack. -/
theorem c4_direct_recursion_guard :
    (∀ f : Nat, resolveT tmplsSelf (f + 1 + 1) [] ("#a||x=1||".toList) =
      .error .directRecursion) ∧
    (∀ f : Nat, resolveT tmplsAB f [] ("#a".toList) = .error .outOfFuel) ∧
    (∀ (outer : List String) (nm : String),
      lastIs outer nm = true ↔ outer ≠ [] ∧ outer.getLast? = some nm) := by
  refine ⟨?_, ?_, ?_⟩
  · intro f
    have hbody : interpolate tmplSelfA (parseArgs true "x=1") = .ok "#a||x=1||" := by
      have hb : tmplSelfA.body = "#a||x=1||" := by decide
      have h := interpolate_noPP tmplSelfA (parseArgs true "x=1") (by decide)
      rw [hb] at h
      exact h
    have hstep2 : resolveT tmplsSelf (f + 1) ["a"] ("#a||x=1||".toList) =
        .error .directRecursion := by
      have hl : ("#a||x=1||".toList) = '#' :: "a||x=1||".toList := rfl
      rw [hl, resolveT_step_inv tmplsSelf f ["a"] ("a||x=1||".toList) (by decide)]
      have ht : (List.takeWhile isWordChar ("a||x=1||".toList)).asString = "a" := rfl
      rw [ht]
      have hguard : lastIs ["a"] "a" = true := rfl
      rw [hguard]
      rfl
    have hl : ("#a||x=1||".toList) = '#' :: "a||x=1||".toList := rfl
    rw [hl, resolveT_step_inv tmplsSelf (f + 1) [] ("a||x=1||".toList) (by decide)]
    have ht : (List.takeWhile isWordChar ("a||x=1||".toList)).asString = "a" := rfl
    have hd : parseInvArgs (List.dropWhile isWordChar ("a||x=1||".toList)) =
        (some "x=1", []) := rfl
    rw [ht, hd]
    have hguard : lastIs [] "a" = false := rfl
    simp only [hguard, if_false, Bool.false_eq_true]
    have halk : alookup tmplsSelf "a" = some tmplSelfA := rfl
    rw [halk]
    simp only [Option.getD]
    rw [hbody]
    simp only [Bind.bind, Except.bind, List.nil_append]
    rw [hstep2]
  · intro f
    exact (resolveT_ab_no_guard f).1 [] rfl
  · intro outer nm
    unfold lastIs
    cases h : outer.getLast? with
    | none =>
      have : outer = [] := List.getLast?_eq_none_iff.mp h
      subst this
      simp
    | some tname =>
      have hne : outer ≠ [] := by
        intro hc
        subst hc
        simp at h
      simp [hne, beq_iff_eq, h]

/-- Witness for the C4 theorem at concrete stack budgets. -/
theorem c4_direct_recursion_guard_witness :
    resolveT tmplsSelf 2 [] ("#a||x=1||".toList) = .error .directRecursion ∧
    resolveT tmplsAB 5 [] ("#a".toList) = .error .outOfFuel :=
  ⟨c4_direct_recursion_guard.1 0, c4_direct_recursion_guard.2.1 5⟩

/-! ## Metadata Builder (`Builder`, `ObjectBuilder`,
`DatafileVariable.parse_metadata`) -/

/-- Builder failures: `LabGenError`s raised by `Builder` methods, plus the
Python-level `ValueError`s raised by the numeric converters. -/
inductive BErr where
  | unknownProperty (k : String) : BErr
  | noConverter (kind : String) : BErr
  | noObjectBuilding (k v : String) : BErr
  | missingRequired (k : String) : BErr
  | badValue (kind raw : String) : BErr
deriving DecidableEq, Repr

/-- The declared value kinds (`METADATA_VALUE_TYPE_*`). -/
inductive PKind where
  | number : PKind
  | list : PKind
  | builder : PKind
  | str : PKind
  | range : PKind
  | bool : PKind
deriving DecidableEq, Repr

/-- A `Property` descriptor: name, value kind, optional default text,
cardinality, and — for nested-object (`builder`) properties — the
PropertySet of the object type (`find_all_properties(object_type)`, listed
in the sorted field order `dir()` yields). -/
inductive Property where
  | mk (name : String) (kind : PKind) (default : Option String)
      (single : Bool) (objectProps : List Property) : Property

def Property.name : Property → String
  | .mk n _ _ _ _ => n

def Property.kind : Property → PKind
  | .mk _ k _ _ _ => k

def Property.default : Property → Option String
  | .mk _ _ d _ _ => d

def Property.single : Property → Bool
  | .mk _ _ _ s _ => s

def Property.objectProps : Property → List Property
  | .mk _ _ _ _ o => o

/-- `self.possible_properties[key]` key search. -/
def propFind : List Property → String → Option Property
  | [], _ => none
  | p :: rest, k => if p.name = k then some p else propFind rest k

mutual
/-- A converted metadata value.  `vobj` is a built sub-object
(`object_type(name, metadata)`, e.g. a `Curve`): its title and its own
metadata map. -/
inductive Value where
  | vstr : String → Value
  | vnum : Rat → Value
  | vlist : List String → Value
  | vrange : Option (Rat × Rat) → Value
  | vbool : Bool → Value
  | vobj : String → List (String × MValue) → Value

/-- One metadata entry: a single typed value, or the ordered list a
multi-valued property accumulates. -/
inductive MValue where
  | single : Value → MValue
  | multi : List Value → MValue
end

abbrev Mdata := List (String × MValue)

def digitsVal (l : List Char) : Nat :=
  l.foldl (fun a c => a * 10 + (c.toNat - 48)) 0

/-- Python `float(s)` on finite decimal literals: optional sign, digits with
an optional fractional part (at least one digit overall), optional
exponent; surrounding whitespace allowed; anything else raises
(`none` here). -/
def parseFloat (s : String) : Option Rat :=
  let cs0 := stripChars s.toList
  let sgn : Int × List Char :=
    match cs0 with
    | '+' :: r => (1, r)
    | '-' :: r => (-1, r)
    | r => (1, r)
  let intPart := sgn.2.takeWhile Char.isDigit
  let cs2 := sgn.2.dropWhile Char.isDigit
  let fr : List Char × List Char :=
    match cs2 with
    | '.' :: r => (r.takeWhile Char.isDigit, r.dropWhile Char.isDigit)
    | r => ([], r)
  if intPart.isEmpty ∧ fr.1.isEmpty then none
  else
    let mant : Rat := (sgn.1 : Rat) * ((digitsVal intPart : Rat) +
      (digitsVal fr.1 : Rat) / (10 : Rat) ^ fr.1.length)
    match fr.2 with
    | [] => some mant
    | e :: r =>
      if e = 'e' ∨ e = 'E' then
        let es : Int × List Char :=
          match r with
          | '+' :: q => (1, q)
          | '-' :: q => (-1, q)
          | q => (1, q)
        let eds := es.2.takeWhile Char.isDigit
        if eds.isEmpty ∨ ¬(es.2.dropWhile Char.isDigit).isEmpty then none
        else some (mant * (10 : Rat) ^ (es.1 * (digitsVal eds : Int)))
      else none

/-- `DatafileVariable.CONVERTERS`, applied to the already-stripped value
text: `list` splits on `;` dropping empty tokens and strips each; `number`
parses a float; `str` strips; `range` is the `autoscale` sentinel or a
`start;stop` pair of floats (`RangeObject`); `boolean` is false exactly for
(case-insensitive) `false`, `f`, `0`; the `builder` kind has no converter. -/
def applyConv (kind : PKind) (v : String) : Except BErr Value :=
  match kind with
  | .list => .ok (.vlist (((pySplit ';' v).filter (· ≠ "")).map pyStrip))
  | .number =>
    match parseFloat v with
    | some q => .ok (.vnum q)
    | none => .error (.badValue "number" v)
  | .str => .ok (.vstr (pyStrip v))
  | .range =>
    if pyStrip v = "autoscale" then .ok (.vrange none)
    else
      match pySplit ';' v with
      | [a, b] =>
        match parseFloat a, parseFloat b with
        | some x, some y => .ok (.vrange (some (x, y)))
        | _, _ => .error (.badValue "range" v)
      | _ => .error (.badValue "range" v)
  | .bool => .ok (.vbool (!(["false", "f", "0"].contains (pyLower v))))
  | .builder => .error (.noConverter "builder")

/-- `Builder.process_value`: strip the raw text, then convert. -/
def processValue (kind : PKind) (raw : String) : Except BErr Value :=
  applyConv kind (pyStrip raw)

/-- `Builder.put_processed`: a single-valued property overwrites its entry;
a multi-valued property appends to the accumulated list (starting from `[]`
when absent — for a multi-valued property any prior entry is a list, since
a name's cardinality is fixed by its Property). -/
def putProcessed (md : Mdata) (p : Property) (v : Value) : Mdata :=
  if p.single then ainsert md p.name (.single v)
  else
    let prior :=
      match alookup md p.name with
      | some (.multi vs) => vs
      | _ => []
    ainsert md p.name (.multi (prior ++ [v]))

/-- The state of one `Builder`: its PropertySet and accumulated metadata,
plus the at-most-one active `ObjectBuilder` (raw title, owning `Property`,
and inner builder state — an `ObjectBuilder` is itself a `Builder` over
`find_all_properties(object_type)`). -/
inductive BState where
  | mk (props : List Property) (md : Mdata) : BState
  | withOb (props : List Property) (md : Mdata)
      (obName : String) (obProp : Property) (inner : BState) : BState

def BState.props : BState → List Property
  | .mk ps _ => ps
  | .withOb ps _ _ _ _ => ps

def BState.md : BState → Mdata
  | .mk _ m => m
  | .withOb _ m _ _ _ => m

/-- The defaulting loop of `Builder.build`: every declared property not yet
present and not of `builder` kind is filled from its default (converted via
`put`), a missing default raising `LabGenError`. -/
def applyDefaults : List Property → Mdata → Except BErr Mdata
  | [], md => .ok md
  | p :: rest, md =>
    if (alookup md p.name).isNone ∧ p.kind ≠ .builder then
      match p.default with
      | none => .error (.missingRequired p.name)
      | some d => do
        let v ← processValue p.kind d
        applyDefaults rest (putProcessed md p v)
    else applyDefaults rest md

/-- `Builder.build`: flush the active ObjectBuilder if any —
`ObjectBuilder.build` being `object_type(obj_name, Builder.build(inner))`,
so the sub-object is finalized with its own defaults — then apply the
defaulting loop. -/
def buildMeta : BState → Except BErr Mdata
  | .mk props md => applyDefaults props md
  | .withOb props md obName obProp inner => do
    let im ← buildMeta inner
    applyDefaults props (putProcessed md obProp (.vobj obName im))

/-- `Builder.flush_object_builder`: a no-op without an active
ObjectBuilder; otherwise commit `ob.build()` under the owning Property and
clear the builder. -/
def flushOB : BState → Except BErr BState
  | .mk props md => .ok (.mk props md)
  | .withOb props md obName obProp inner => do
    let im ← buildMeta inner
    .ok (.mk props (putProcessed md obProp (.vobj obName im)))

/-- `Builder.put`: look up the key's Property (`KeyError` when unknown).  A
`builder`-kind property first flushes any active ObjectBuilder and then
opens a new one titled by the string-converted value; any other kind
converts the value and stores it in this builder's own metadata, leaving an
active ObjectBuilder untouched. -/
def putB (st : BState) (key value : String) : Except BErr BState :=
  match propFind st.props key with
  | none => .error (.unknownProperty key)
  | some prop =>
    if prop.kind = .builder then do
      let st1 ← flushOB st
      .ok (.withOb st1.props st1.md (pyStrip value) prop (.mk prop.objectProps []))
    else do
      let v ← processValue prop.kind value
      match st with
      | .mk props md => .ok (.mk props (putProcessed md prop v))
      | .withOb props md n p inner => .ok (.withOb props (putProcessed md prop v) n p inner)

/-- `Builder.put_into_object_builder`: requires an active ObjectBuilder and
delegates the put to it. -/
def putIntoOB (st : BState) (key value : String) : Except BErr BState :=
  match st with
  | .mk _ _ => .error (.noObjectBuilding key value)
  | .withOb props md n p inner => do
    let inner1 ← putB inner key value
    .ok (.withOb props md n p inner1)

/-- One line against
`METADATA_PATTERN = ^(\.?)(\w+)\s*=(?:$|\s*(.*))`: optional leading dot, a
non-empty run of word characters, optional whitespace, `=`, then the rest
of the line with leading whitespace dropped (empty when `=` ends the line).
Non-matching lines yield no match and are skipped. -/
def parseMetaLine (line : String) : Option (Bool × String × String) :=
  let pr : Bool × List Char :=
    match line.toList with
    | '.' :: r => (true, r)
    | r => (false, r)
  let key := pr.2.takeWhile isWordChar
  if key.isEmpty then none
  else
    match (pr.2.dropWhile isWordChar).dropWhile isSpaceChar with
    | '=' :: rest => some (pr.1, key.asString, (rest.dropWhile isSpaceChar).asString)
    | _ => none

/-- The loop of `DatafileVariable.parse_metadata`: dotted lines go into the
active ObjectBuilder; a top-level line is preceded by a flush only when
`last_were_object` is set — but the source initializes `last_were_object`
to `False` and never assigns it afterwards, so that flush branch is dead
and only `builder.put` (on `builder`-kind keys) and the final `build()`
ever flush. -/
def runLines : BState → Bool → List (Bool × String × String) → Except BErr BState
  | st, _, [] => .ok st
  | st, lastWereObject, (dotted, k, v) :: rest =>
    if dotted then do
      let st1 ← putIntoOB st k v
      runLines st1 lastWereObject rest
    else do
      let st1 ← if lastWereObject then flushOB st else .ok st
      let st2 ← putB st1 k v
      runLines st2 lastWereObject rest

/-- `DatafileVariable.parse_metadata` followed by `Builder.build`. -/
def parseMetadata (props : List Property) (input : String) : Except BErr Mdata := do
  let st ← runLines (.mk props []) false ((pySplit '\n' input).filterMap parseMetaLine)
  buildMeta st

/-- `find_all_properties(Curve)`, in the sorted order of the `_PROP_*`
field names (`dir()` sorts): color, scope, style, x, y. -/
def curveProps : List Property :=
  [.mk "color" .str (some "black") true [],
   .mk "scope" .str (some "") true [],
   .mk "style" .str (some "-") true [],
   .mk "x" .str (some "x") true [],
   .mk "y" .str (some "y") true []]

/-- `find_all_properties(Plot)`: axes, curve, xrange, yrange. -/
def plotProps : List Property :=
  [.mk "axes" .list (some "x;y") true [],
   .mk "curve" .builder none false curveProps,
   .mk "xrange" .range (some "autoscale") true [],
   .mk "yrange" .range (some "autoscale") true []]

/-- `find_all_properties(Table)`: cols, meta, stack. -/
def tableProps : List Property :=
  [.mk "cols" .list (some "") true [],
   .mk "meta" .bool (some "0") true [],
   .mk "stack" .list (some "") true []]

/-- A minimal PropertySet for exercising the flush behaviour: a plain
string property `axes` and a multi-valued nested property `curve` whose
object type has one sub-property `y`. -/
def c2SubProps : List Property := [.mk "y" .str (some "y0") true []]

def c2Props : List Property :=
  [.mk "axes" .str (some "A") true [],
   .mk "curve" .builder none false c2SubProps]

/-- C2, code behaviour at the failing input: after `curve=c1` opens an
ObjectBuilder, the top-level non-nested line `axes=B` does NOT flush it
(`last_were_object` is never set, and `put` only flushes for
`builder`-kind keys), so the following `.y=q` still lands inside `c1` and
the parse succeeds — where the claim requires `axes=B` to flush `c1` first,
which would make `.y=q` a dangling sub-property error. -/
theorem c2_code_behavior :
    parseMetadata c2Props "curve=c1\naxes=B\n.y=q" =
      .ok [("axes", .single (.vstr "B")),
           ("curve", .multi [.vobj "c1" [("y", .single (.vstr "q"))]])] := by
  rfl

def c3Input : String := "curve=c1\n.x=t\n.y=f(t)\ncurve=c2\n.x=u\n.y=g(u)"

def c3Prefix : String := "curve=c1\n.x=t\n.y=f(t)\ncurve=c2"

/-- The finalized `c1` curve metadata: the two supplied sub-properties in
encounter order, then the defaults in PropertySet order. -/
def curveC1Md : Mdata :=
  [("x", .single (.vstr "t")), ("y", .single (.vstr "f(t)")),
   ("color", .single (.vstr "black")), ("scope", .single (.vstr "")),
   ("style", .single (.vstr "-"))]

def curveC2Md : Mdata :=
  [("x", .single (.vstr "u")), ("y", .single (.vstr "g(u)")),
   ("color", .single (.vstr "black")), ("scope", .single (.vstr "")),
   ("style", .single (.vstr "-"))]

/-- C3: on the Plot PropertySet, the six lines `curve=c1`, `.x=t`,
`.y=f(t)`, `curve=c2`, `.x=u`, `.y=g(u)` produce `curve` bound to the
sequence `[c1, c2]` in encounter order; and already after the `curve=c2`
line is processed — before any `c2` sub-line — the parent metadata holds
the fully finalized `c1` object, its unspecified sub-properties filled from
the Curve defaults, with a fresh empty builder open for `c2`. -/
theorem c3_nested_curve_sequence :
    parseMetadata plotProps c3Input =
      .ok [("curve", .multi [.vobj "c1" curveC1Md, .vobj "c2" curveC2Md]),
           ("axes", .single (.vlist ["x", "y"])),
           ("xrange", .single (.vrange none)),
           ("yrange", .single (.vrange none))] ∧
    runLines (.mk plotProps []) false
        ((pySplit '\n' c3Prefix).filterMap parseMetaLine) =
      .ok (.withOb plotProps [("curve", .multi [.vobj "c1" curveC1Md])] "c2"
        (Property.mk "curve" .builder none false curveProps) (.mk curveProps [])) :=
  ⟨rfl, rfl⟩

theorem alookup_putProcessed_ne (md : Mdata) (p : Property) (v : Value) (k : String)
    (h : k ≠ p.name) : alookup (putProcessed md p v) k = alookup md k := by
  unfold putProcessed
  by_cases hs : p.single
  · simp [hs, alookup_ainsert_ne _ _ _ _ h]
  · simp [hs, alookup_ainsert_ne _ _ _ _ h]

theorem alookup_putProcessed_self_absent (md : Mdata) (p : Property) (v : Value)
    (h : alookup md p.name = none) :
    alookup (putProcessed md p v) p.name =
      some (if p.single then MValue.single v else MValue.multi [v]) := by
  unfold putProcessed
  by_cases hs : p.single
  · simp [hs, alookup_ainsert_self]
  · simp [hs, h, alookup_ainsert_self]

/-- The defaulting loop, run over a PropertySet with distinct names whose
non-`builder` members all carry convertible defaults, starting from
metadata that binds none of them: it succeeds, binds each such property to
its converted default (respecting cardinality), and touches nothing else. -/
theorem applyDefaults_sound :
    ∀ (props : List Property) (md0 : Mdata),
      (props.map Property.name).Nodup →
      (∀ p ∈ props, p.kind ≠ .builder →
        ∃ d v, p.default = some d ∧ processValue p.kind d = .ok v) →
      (∀ p ∈ props, alookup md0 p.name = none) →
      ∃ md, applyDefaults props md0 = .ok md ∧
        (∀ p ∈ props, p.kind ≠ .builder →
          ∃ d v, p.default = some d ∧ processValue p.kind d = .ok v ∧
            alookup md p.name =
              some (if p.single then MValue.single v else MValue.multi [v])) ∧
        (∀ k, k ∉ props.map Property.name → alookup md k = alookup md0 k) := by
  intro props
  induction props with
  | nil =>
    intro md0 _ _ _
    exact ⟨md0, rfl, by simp, fun _ _ => rfl⟩
  | cons p rest ih =>
    intro md0 hnd hdef habs
    have hmd0p : alookup md0 p.name = none := habs p (by simp)
    rw [List.map_cons, List.nodup_cons] at hnd
    obtain ⟨hpn, hnd'⟩ := hnd
    by_cases hb : p.kind = PKind.builder
    · have hstep : applyDefaults (p :: rest) md0 = applyDefaults rest md0 := by
        simp only [applyDefaults]
        rw [if_neg (by simp [hb])]
      obtain ⟨md, h1, h2, h3⟩ := ih md0 hnd'
        (fun q hq => hdef q (by simp [hq]))
        (fun q hq => habs q (by simp [hq]))
      refine ⟨md, by rw [hstep]; exact h1, ?_, ?_⟩
      · intro q hq hqb
        rcases List.mem_cons.mp hq with rfl | hq'
        · exact absurd hb hqb
        · exact h2 q hq' hqb
      · intro k hk
        rw [List.map_cons, List.mem_cons] at hk
        push_neg at hk
        exact h3 k hk.2
    · obtain ⟨d, v, hd, hv⟩ := hdef p (by simp) hb
      have hstep : applyDefaults (p :: rest) md0 =
          applyDefaults rest (putProcessed md0 p v) := by
        simp only [applyDefaults]
        rw [if_pos ⟨by simp [hmd0p], hb⟩, hd]
        simp only [hv]
        rfl
      have hmem1 : ∀ q ∈ rest, alookup (putProcessed md0 p v) q.name = none := by
        intro q hq
        have hne : q.name ≠ p.name := by
          intro hc
          exact hpn (hc ▸ List.mem_map_of_mem Property.name hq)
        rw [alookup_putProcessed_ne _ _ _ _ hne]
        exact habs q (by simp [hq])
      obtain ⟨md, h1, h2, h3⟩ := ih (putProcessed md0 p v) hnd'
        (fun q hq => hdef q (by simp [hq])) hmem1
      refine ⟨md, by rw [hstep]; exact h1, ?_, ?_⟩
      · intro q hq hqb
        rcases List.mem_cons.mp hq with rfl | hq'
        · refine ⟨d, v, hd, hv, ?_⟩
          rw [h3 q.name hpn, alookup_putProcessed_self_absent _ _ _ hmd0p]
        · exact h2 q hq' hqb
      · intro k hk
        rw [List.map_cons, List.mem_cons] at hk
        push_neg at hk
        rw [h3 k hk.2, alookup_putProcessed_ne _ _ _ _ hk.1]

/-- A property set with a `number` property whose default text `abc` is not
a valid float. -/
def c8Props : List Property := [.mk "p" .number (some "abc") true []]

/-- C8, counterexample: a PropertySet in which every non-nested property
has a default, yet `Builder.build` on empty input does not succeed — the
defaulting loop feeds the default `abc` through `float()`, which raises. -/
theorem c8_counterexample :
    parseMetadata c8Props "" = .error (.badValue "number" "abc") := by
  rfl

/-- C8 (amended): for every PropertySet with distinct names in which every
non-nested-object property has a default accepted by its kind's converter,
the Metadata Builder on empty input succeeds and binds each such property
to its converted default. -/
theorem c8_defaults_from_empty (props : List Property)
    (hnd : (props.map Property.name).Nodup)
    (hdef : ∀ p ∈ props, p.kind ≠ .builder →
      ∃ d v, p.default = some d ∧ processValue p.kind d = .ok v) :
    ∃ md, parseMetadata props "" = .ok md ∧
      ∀ p ∈ props, p.kind ≠ .builder →
        ∃ d v, p.default = some d ∧ processValue p.kind d = .ok v ∧
          alookup md p.name =
            some (if p.single then MValue.single v else MValue.multi [v]) := by
  obtain ⟨md, h1, h2, _⟩ := applyDefaults_sound props [] hnd hdef (fun _ _ => rfl)
  exact ⟨md, h1, h2⟩

/-- Witness for the amended C8 theorem on the Table PropertySet: all three
properties (cols, meta, stack) come out as their converted defaults. -/
theorem c8_defaults_from_empty_witness :
    ∃ md, parseMetadata tableProps "" = .ok md ∧
      ∀ p ∈ tableProps, p.kind ≠ .builder →
        ∃ d v, p.default = some d ∧ processValue p.kind d = .ok v ∧
          alookup md p.name =
            some (if p.single then MValue.single v else MValue.multi [v]) :=
  c8_defaults_from_empty tableProps (by decide) (by
    intro p hp _
    simp only [tableProps, List.mem_cons, List.not_mem_nil, or_false] at hp
    rcases hp with rfl | rfl | rfl
    · exact ⟨"", .vlist [], rfl, rfl⟩
    · exact ⟨"0", .vbool false, rfl, rfl⟩
    · exact ⟨"", .vlist [], rfl, rfl⟩)

/-! ## Command Dispatcher (`Command.__call__`) -/

/-- Failures of command dispatch: the `KeyError` from `args_dict[arg_name]`
in the positional walk, and the `TypeError`s Python raises when binding the
final handler call. -/
inductive CErr where
  | keyError (nm : String) : CErr
  | multipleValues (nm : String) : CErr
  | unexpectedKeyword (nm : String) : CErr
  | missingArgument (nm : String) : CErr
  | tooManyPositional : CErr
deriving DecidableEq, Repr

/-- A handler's declared signature after the implicit context parameter
(`get_method_arg_names(...)[1:]`): the declared parameters with optional
defaults, and whether the handler takes `**kwargs`. -/
structure PySig where
  params : List (String × Option String)
  hasKwargs : Bool

/-- The positional walk of `Command.__call__`: for each declared parameter
name after the context, in order, `args_dict.get(i)` first and then
`args_dict[arg_name]` as the fallback (a `KeyError` when both miss),
incrementing `i` each step. -/
def buildPositional (args : List (ArgKey × String)) :
    List String → Nat → Except CErr (List String)
  | [], _ => .ok []
  | nm :: rest, i =>
    match (match alookup args (.pos i) with
           | some v => some v
           | none => alookup args (.name nm)) with
    | none => .error (.keyError nm)
    | some v => do
      let tail ← buildPositional args rest (i + 1)
      .ok (v :: tail)

def keyStr : ArgKey → String
  | .pos n => toString n
  | .name s => s

/-- `dict(map(lambda key: (str(key), args_dict[key]), args_dict.keys()))`:
every entry of the argument map, keys stringified, passed as keywords. -/
def stringifyArgs (args : List (ArgKey × String)) : List (String × String) :=
  args.map (fun kv => (keyStr kv.1, kv.2))

/-- Python's binding of the keyword dict in
`f(context, *positional, **kwargs_dict)`: each keyword either binds a
declared parameter — `TypeError: multiple values` if that parameter is
already bound — or lands in the handler's `**kwargs`, which is
`TypeError: unexpected keyword` when the handler has none. -/
def bindKw (paramNames : List String) (hasKw : Bool) :
    List (String × String) → List (String × String) → List (String × String) →
    Except CErr (List (String × String) × List (String × String))
  | [], bound, extra => .ok (bound, extra)
  | (k, v) :: rest, bound, extra =>
    if k ∈ paramNames then
      if (alookup bound k).isSome then .error (.multipleValues k)
      else bindKw paramNames hasKw rest (bound ++ [(k, v)]) extra
    else if hasKw then bindKw paramNames hasKw rest bound (extra ++ [(k, v)])
    else .error (.unexpectedKeyword k)

/-- Unbound declared parameters take their defaults; a parameter with no
value and no default is `TypeError: missing argument`. -/
def fillDefaults (bound : List (String × String)) :
    List (String × Option String) → Except CErr (List (String × String))
  | [] => .ok []
  | (nm, dflt) :: rest => do
    let tail ← fillDefaults bound rest
    match alookup bound nm with
    | some v => .ok ((nm, v) :: tail)
    | none =>
      match dflt with
      | some dv => .ok ((nm, dv) :: tail)
      | none => .error (.missingArgument nm)

/-- Python call binding for `f(context, *positional, **kwargs_dict)` against
the declared signature: positionals fill the declared parameters in order
(excess raising `TypeError`), then the keyword dict is bound, then defaults
fill the rest.  Returns the parameter environment the handler sees and the
contents of its `**kwargs`. -/
def pyBindCall (sig : PySig) (positional : List String)
    (kwargs : List (String × String)) :
    Except CErr (List (String × String) × List (String × String)) :=
  if sig.params.length < positional.length then .error .tooManyPositional
  else do
    let pr ← bindKw (sig.params.map Prod.fst) sig.hasKwargs kwargs
      ((sig.params.map Prod.fst).zip positional) []
    let env ← fillDefaults pr.1 sig.params
    .ok (env, pr.2)

/-- `Command.__call__` followed by Python's binding of
`self.command_exec_method(parser, *positional, **kwargs_dict)`. -/
def dispatchCommand (sig : PySig) (args : List (ArgKey × String)) :
    Except CErr (List (String × String) × List (String × String)) := do
  let positional ← buildPositional args (sig.params.map Prod.fst) 0
  pyBindCall sig positional (stringifyArgs args)

/-- The handler of the claim for C6: declared
`(context, tableVar, precision="3")`, with an open keyword channel. -/
def c6Sig : PySig := ⟨[("tableVar", none), ("precision", some "3")], true⟩

/-- The claim's argument map: positional 0 is `t1`, named `precision` is
`5`. -/
def c6Args : List (ArgKey × String) := [(.pos 0, "t1"), (.name "precision", "5")]

/-- C6, code behaviour at the failing input: the positional walk does fill
the positional list as the claim says — integer index first, then the name
as fallback, so `precision` is consumed into the positionals — but
`Command.__call__` then passes every argument-map entry (keys stringified)
as keywords, consumed or not.  `precision` therefore arrives both
positionally and as a keyword, and Python raises
`TypeError: got multiple values for argument 'precision'` instead of
invoking the handler with keyword `precision="5"`. -/
theorem c6_code_behavior :
    buildPositional c6Args (c6Sig.params.map Prod.fst) 0 = .ok ["t1", "5"] ∧
    stringifyArgs c6Args = [("0", "t1"), ("precision", "5")] ∧
    dispatchCommand c6Sig c6Args = .error (.multipleValues "precision") :=
  ⟨rfl, rfl, rfl⟩

end Labgen
